import Mathlib

/-!
Verification of the data-freshness and signal-aggregation core:
a shallow embedding of `src/core/cache.py`, `src/core/sources.py` and
`src/core/spike_detector.py`, together with theorems settling the
specification's claims about them.

Modelling conventions:
* Python dicts and the per-key file directory become association lists
  (`lookupA`, `eraseA`, `insertA`); insertion keeps at most one entry per key,
  and a rewritten file is placed at the end of the list, matching a directory
  where the freshest write carries the newest modification time (the cache
  writes a file's `timestamp` field at the moment the file is written, so in
  the model a file's mtime is its entry's `timestamp`).
* `time.time()` becomes an explicit `now : Int` argument threaded through the
  operations; stateful methods become functions returning a pair of result and
  updated state.
* Python float arithmetic in the spike detector is modelled over `ℚ`
  (exact real-valued semantics of the arithmetic expressions in the source).
* Network calls become explicit outcome parameters (`FetchOutcome`).
-/

/-- Association list lookup. It models a Python dict lookup and the
"file exists, read it" step of the file tier (keys stay unique under
`insertA`, so the first match is the only match). -/
def lookupA {β : Type} (k : String) : List (String × β) → Option β
  | [] => none
  | p :: rest => if p.1 = k then some p.2 else lookupA k rest

/-- Removal of every entry for a key. It models `del d[k]` on a dict and
`Path.unlink` on the file tier. -/
def eraseA {β : Type} (k : String) (l : List (String × β)) : List (String × β) :=
  l.filter (fun p => p.1 != k)

/-- Insertion or overwrite of a key. The entry goes to the end of the list;
for the file tier this matches the rewritten file becoming the newest one. -/
def insertA {β : Type} (k : String) (v : β) (l : List (String × β)) : List (String × β) :=
  eraseA k l ++ [(k, v)]

/-- Python's `str.isalnum`, modelled exactly for code points below 256
(ASCII digits and letters, plus the Latin-1 alphanumerics: ª ² ³ µ ¹ º ¼ ½ ¾
and the accented letters C0–FF without × and ÷). Theorems that depend on this
predicate restrict keys to this range. -/
def pyIsAlnum (c : Char) : Bool :=
  let n := c.toNat
  (48 ≤ n && n ≤ 57) || (65 ≤ n && n ≤ 90) || (97 ≤ n && n ≤ 122) ||
  n == 0xAA || n == 0xB2 || n == 0xB3 || n == 0xB5 || n == 0xB9 || n == 0xBA ||
  (0xBC ≤ n && n ≤ 0xBE) ||
  (0xC0 ≤ n && n ≤ 0xFF && n != 0xD7 && n != 0xF7)

/-- Cache._get_cache_file's key sanitization (`safe_key` in the source):
keep a character when `c.isalnum()` holds or it is `-` or `_`, and replace
every other character with `_`. The file for a key is `safe_key ++ ".json"`
inside the cache directory; since `.json` is appended uniformly, the model
keys the file tier by `safe_key` directly. -/
def safe_key (key : String) : String :=
  String.mk (key.data.map (fun c => if pyIsAlnum c || c == '-' || c == '_' then c else '_'))

/-- The sanitization the specification describes: replace any character
outside `[A-Za-z0-9_-]` with `_`. Stated from the spec's words, for
comparison with `safe_key`. -/
def spec_safe_key (key : String) : String :=
  String.mk (key.data.map (fun c =>
    if (('A' ≤ c && c ≤ 'Z') || ('a' ≤ c && c ≤ 'z') || ('0' ≤ c && c ≤ '9')
        || c == '-' || c == '_') then c else '_'))

/-- Content of one cache slot: the stored value and the `time.time()` stamp
recorded by `Cache.set` (in a file this is the `timestamp` field, and it is
also the file's modification time, since the file is written at that moment). -/
structure Entry (α : Type) where
  data : α
  timestamp : Int
deriving DecidableEq

/-- State of `Cache`: the in-memory dict, the file directory (keyed by
sanitized key) and the `max_entries` budget. -/
structure CacheState (α : Type) where
  memory : List (String × Entry α)
  files : List (String × Entry α)
  max_entries : Nat
deriving DecidableEq

/-- Fresh cache with an empty directory, as built by `Cache.__init__`. -/
def emptyCache (α : Type) (maxEntries : Nat) : CacheState α :=
  ⟨[], [], maxEntries⟩

/-- Stable insertion step of sorting the file list by modification time
(ascending), the order `Cache._cleanup` sorts into. -/
def insertByMtime {α : Type} (x : String × Entry α) :
    List (String × Entry α) → List (String × Entry α)
  | [] => [x]
  | y :: ys =>
    if x.2.timestamp ≤ y.2.timestamp then x :: y :: ys else y :: insertByMtime x ys

/-- Sort of the file list by modification time, ascending (oldest first). -/
def sortByMtime {α : Type} : List (String × Entry α) → List (String × Entry α)
  | [] => []
  | x :: xs => insertByMtime x (sortByMtime xs)

/-- Cache._cleanup: when the file count exceeds `max_entries`, sort the files
by modification time and unlink the oldest ones until the count is back at the
limit. -/
def cleanup {α : Type} (s : CacheState α) : CacheState α :=
  if s.max_entries < s.files.length then
    { s with files := (sortByMtime s.files).drop (s.files.length - s.max_entries) }
  else s

/-- Cache.set: store `(value, now)` in the memory dict, write the file for the
sanitized key with the same timestamp, then run `_cleanup`. -/
def cacheSet {α : Type} (now : Int) (key : String) (value : α) (s : CacheState α) :
    CacheState α :=
  cleanup { s with
    memory := insertA key ⟨value, now⟩ s.memory,
    files := insertA (safe_key key) ⟨value, now⟩ s.files }

/-- File-tier half of `Cache.get`: if the file exists and is fresh
(`now - timestamp < ttl`), promote it into memory under the original key and
return its data; if it exists but is expired, unlink it and return `None`. -/
def fileGet {α : Type} (now : Int) (key : String) (ttl : Int) (s : CacheState α) :
    Option α × CacheState α :=
  match lookupA (safe_key key) s.files with
  | none => (none, s)
  | some e =>
    if now - e.timestamp < ttl then
      (some e.data, { s with memory := insertA key e s.memory })
    else
      (none, { s with files := eraseA (safe_key key) s.files })

/-- Cache.get: check the memory dict first; a fresh memory entry is returned
as is, an expired one is deleted before falling through to the file tier. -/
def cacheGet {α : Type} (now : Int) (key : String) (ttl : Int) (s : CacheState α) :
    Option α × CacheState α :=
  match lookupA key s.memory with
  | some e =>
    if now - e.timestamp < ttl then (some e.data, s)
    else fileGet now key ttl { s with memory := eraseA key s.memory }
  | none => fileGet now key ttl s

/-- Sequence of `Cache.set` calls at strictly increasing clock readings:
write the pairs in order at times `t, t + 1, t + 2, ...`. -/
def setSeq {α : Type} (c : CacheState α) (t : Int) :
    List (String × α) → CacheState α
  | [] => c
  | (k, v) :: rest => setSeq (cacheSet t k v c) (t + 1) rest

/-- File entries a write sequence starting at time `t` produces, in write
order, before any eviction. -/
def expectedFiles {α : Type} (t : Int) : List (String × α) → List (String × Entry α)
  | [] => []
  | (k, v) :: rest => (safe_key k, ⟨v, t⟩) :: expectedFiles (t + 1) rest

/-- One sample in a keyword's rolling history: a mention count and the
`int(time.time())` stamp recorded when it was appended. -/
structure Sample where
  count : Int
  timestamp : Int
deriving DecidableEq

/-- Values appearing in the dict returned by `calculate_spike`: numbers
(ints and floats, modelled over `ℚ`), booleans and strings. -/
inductive RVal where
  | num (q : ℚ)
  | boolean (b : Bool)
  | str (s : String)
deriving DecidableEq

/-- SpikeDetector.calculate_spike, as a pure function of the history loaded
from the cache (`history0`, the `cache.get(...) or []` result), the current
count and the clock. It returns the result dict (an association list in the
source's literal key order) together with the appended-and-pruned history that
the method persists with `cache.set` before returning. -/
def calculate_spike (history0 : List Sample) (current_count : Int) (now : Int) :
    List (String × RVal) × List Sample :=
  let history1 := history0 ++ [⟨current_count, now⟩]
  let cutoff := now - 86400
  let history := history1.filter (fun h => cutoff < h.timestamp)
  if history.length < 2 then
    ([("spike_percent", .num 0), ("is_spike", .boolean false),
      ("historical_avg", .num current_count), ("confidence", .str "low")], history)
  else
    let historical_counts := history.dropLast.map Sample.count
    let avg : ℚ :=
      if historical_counts.isEmpty then 1
      else ((historical_counts.map fun c => ((c : Int) : ℚ)).sum) / (historical_counts.length : ℚ)
    let spike_pct : ℚ :=
      if avg = 0 then (if current_count = 0 then 0 else 100)
      else (((current_count : ℚ) - avg) / avg) * 100
    let is_spike : Bool := decide (50 < spike_pct)
    ([("spike_percent", .num spike_pct), ("is_spike", .boolean is_spike),
      ("historical_avg", .num avg), ("current_count", .num current_count),
      ("confidence", .str (if 10 < history.length then "high" else "medium"))],
     history)

/-- One item produced by the feed layer: the dict
`{title, link, published, source}` built from an RSS entry. -/
structure FeedItem where
  title : String
  link : String
  published : String
  source : String
deriving DecidableEq

/-- One upstream RSS entry, reduced to the fields the source reads
(`entry.get('title','')` and friends). -/
structure RssEntry where
  title : String
  link : String
  published : String
deriving DecidableEq

/-- Outcome of one network attempt: an HTTP 429, a transport error caught by
the except clauses, or a parsed feed with its entries. -/
inductive FetchOutcome where
  | rateLimited
  | transportError
  | success (entries : List RssEntry)

/-- Mutable state of `FeedSource`: the configured mirror list, the rotation
pointer and the per-source cooldown map `rate_limit_until`. -/
structure FeedSourceState where
  nitter_urls : List String
  current_nitter_idx : Nat
  rate_limit_until : List (String × Int)
deriving DecidableEq

/-- FeedSource._get_nitter_url: the mirror under the current pointer, with a
fixed default when no mirror is configured. -/
def get_nitter_url (s : FeedSourceState) : String :=
  if s.nitter_urls.isEmpty then "https://nitter.net"
  else s.nitter_urls.getD s.current_nitter_idx ""

/-- FeedSource._rotate_nitter: advance the pointer by one modulo the mirror
count, but only when more than one mirror is configured. -/
def rotate_nitter (s : FeedSourceState) : FeedSourceState :=
  if 1 < s.nitter_urls.length then
    { s with current_nitter_idx := (s.current_nitter_idx + 1) % s.nitter_urls.length }
  else s

/-- FeedSource._set_rate_limit: record `now + duration` as the cooldown
deadline for a source. -/
def set_rate_limit (now : Int) (src : String) (duration : Int) (s : FeedSourceState) :
    FeedSourceState :=
  { s with rate_limit_until := insertA src (now + duration) s.rate_limit_until }

/-- FeedSource._is_rate_limited: true while the stored deadline is in the
future; a deadline that has passed is deleted as a side effect. -/
def is_rate_limited (now : Int) (src : String) (s : FeedSourceState) :
    Bool × FeedSourceState :=
  match lookupA src s.rate_limit_until with
  | some t =>
    if now < t then (true, s)
    else (false, { s with rate_limit_until := eraseA src s.rate_limit_until })
  | none => (false, s)

/-- Conversion of an RSS entry into the tweet dict built inside
`fetch_nitter_search` (source tag 'Twitter/X'). -/
def toTweet (e : RssEntry) : FeedItem :=
  ⟨e.title, e.link, e.published, "Twitter/X"⟩

/-- While loop of `fetch_nitter_search`. `outcomes attempt` is the result of
the network call on that attempt; the fuel starts at `len(nitter_urls)`, the
loop bound `attempts < max_attempts`. Besides the tweets and the final state
it returns the trace of mirror URLs attempted, oldest first. On a 429 the
loop records the cooldown and rotates; on a transport error it only rotates;
on success it appends the first 10 entries and breaks. -/
def nitterLoop (now : Int) (outcomes : Nat → FetchOutcome) :
    Nat → Nat → FeedSourceState → List FeedItem → List String →
    List FeedItem × FeedSourceState × List String
  | _, 0, s, acc, trace => (acc, s, trace)
  | attempt, fuel + 1, s, acc, trace =>
    let url := get_nitter_url s
    match outcomes attempt with
    | .rateLimited =>
      nitterLoop now outcomes (attempt + 1) fuel
        (rotate_nitter (set_rate_limit now "nitter" 300 s)) acc (trace ++ [url])
    | .transportError =>
      nitterLoop now outcomes (attempt + 1) fuel (rotate_nitter s) acc (trace ++ [url])
    | .success entries =>
      (acc ++ (entries.take 10).map toTweet, s, trace ++ [url])

/-- FeedSource.fetch_nitter_search: serve from cache when fresh; fail fast
when the source is cooling down; otherwise run the mirror loop and cache the
tweets only when some were fetched (TTL 1800 on the read). -/
def fetch_nitter_search (now : Int) (query : String) (outcomes : Nat → FetchOutcome)
    (s : FeedSourceState) (c : CacheState (List FeedItem)) :
    List FeedItem × FeedSourceState × CacheState (List FeedItem) :=
  let key := "nitter_search_" ++ query
  match cacheGet now key 1800 c with
  | (some v, c1) => (v, s, c1)
  | (none, c1) =>
    match is_rate_limited now "nitter" s with
    | (true, s1) => ([], s1, c1)
    | (false, s1) =>
      let r := nitterLoop now outcomes 0 s1.nitter_urls.length s1 [] []
      if r.1.isEmpty then (r.1, r.2.1, c1)
      else (r.1, r.2.1, cacheSet now key r.1 c1)

/-- FeedSource.fetch_google_news: serve from cache when fresh; fail fast under
cooldown; a 429 records a cooldown and returns empty without caching; a
transport error is caught and yields empty without caching; a successful parse
keeps the first 5 entries and caches them only when non-empty. -/
def fetch_google_news (now : Int) (query : String) (outcome : FetchOutcome)
    (s : FeedSourceState) (c : CacheState (List FeedItem)) :
    List FeedItem × FeedSourceState × CacheState (List FeedItem) :=
  let key := "google_news_" ++ query
  match cacheGet now key 1800 c with
  | (some v, c1) => (v, s, c1)
  | (none, c1) =>
    match is_rate_limited now "google_news" s with
    | (true, s1) => ([], s1, c1)
    | (false, s1) =>
      match outcome with
      | .rateLimited => ([], set_rate_limit now "google_news" 300 s1, c1)
      | .transportError => ([], s1, c1)
      | .success entries =>
        let articles := (entries.take 5).map
          (fun e => FeedItem.mk e.title e.link e.published "Google News")
        if articles.isEmpty then (articles, s1, c1)
        else (articles, s1, cacheSet now key articles c1)

/-- FeedSource.fetch_rss_feed: same shape as the news fetch, keyed by the feed
URL, tagging items with the given display name, capped at 5 entries. -/
def fetch_rss_feed (now : Int) (url source_name : String) (outcome : FetchOutcome)
    (s : FeedSourceState) (c : CacheState (List FeedItem)) :
    List FeedItem × FeedSourceState × CacheState (List FeedItem) :=
  let key := "rss_" ++ url
  match cacheGet now key 1800 c with
  | (some v, c1) => (v, s, c1)
  | (none, c1) =>
    match is_rate_limited now ("rss_" ++ url) s with
    | (true, s1) => ([], s1, c1)
    | (false, s1) =>
      match outcome with
      | .rateLimited => ([], set_rate_limit now ("rss_" ++ url) 300 s1, c1)
      | .transportError => ([], s1, c1)
      | .success entries =>
        let items := (entries.take 5).map
          (fun e => FeedItem.mk e.title e.link e.published source_name)
        if items.isEmpty then (items, s1, c1)
        else (items, s1, cacheSet now key items c1)

/-- Python's `str.lower` on one character, modelled exactly for code points
below 256: ASCII A–Z and Latin-1 À–Þ (without ×) map down by 32, everything
else in that range is unchanged. -/
def pyLowerChar (c : Char) : Char :=
  let n := c.toNat
  if (65 ≤ n && n ≤ 90) || (0xC0 ≤ n && n ≤ 0xDE && n != 0xD7) then
    Char.ofNat (n + 32)
  else c

/-- Python's `str.lower` on a string (the dedup key `item['title'].lower()`). -/
def pyLower (t : String) : String :=
  String.mk (t.data.map pyLowerChar)

/-- Dedup loop of `aggregate_feeds`: walk the combined items, keep an item
when its lowercased title was not seen yet, remember the title. -/
def dedupLoop (seen : List String) : List FeedItem → List FeedItem
  | [] => []
  | item :: rest =>
    let tl := pyLower item.title
    if seen.contains tl then dedupLoop seen rest
    else item :: dedupLoop (tl :: seen) rest

/-- Stable insertion step of the descending sort by `published`
(`x` goes after every already-placed item whose key is ≥ its own,
matching Python's stable `sort(key=..., reverse=True)`). -/
def insertByPublished (x : FeedItem) : List FeedItem → List FeedItem
  | [] => [x]
  | y :: ys =>
    if x.published < y.published then y :: insertByPublished x ys
    else x :: y :: ys

/-- Sort of the deduplicated items by `published`, descending lexical. -/
def sortByPublishedDesc : List FeedItem → List FeedItem
  | [] => []
  | x :: xs => insertByPublished x (sortByPublishedDesc xs)

/-- Per-keyword fetch loop of `aggregate_feeds`, parametric over the two
fetch calls (social search, then news search) and their shared mutable state
(the real calls thread the `FeedSource` and `Cache` state). -/
def aggLoop {σ : Type} (fetchSocial fetchNews : String → σ → List FeedItem × σ) :
    List String → σ → List FeedItem × σ
  | [], st => ([], st)
  | k :: ks, st =>
    let r1 := fetchSocial k st
    let r2 := fetchNews k r1.2
    let rest := aggLoop fetchSocial fetchNews ks r2.2
    (r1.1 ++ r2.1 ++ rest.1, rest.2)

/-- FeedSource.aggregate_feeds: fetch social then news for each of the first
5 keywords, deduplicate by lowercased title keeping first occurrences, sort by
`published` descending, return the first 20. -/
def aggregate_feeds {σ : Type} (fetchSocial fetchNews : String → σ → List FeedItem × σ)
    (keywords : List String) (st : σ) : List FeedItem × σ :=
  let r := aggLoop fetchSocial fetchNews (keywords.take 5) st
  ((sortByPublishedDesc (dedupLoop [] r.1)).take 20, r.2)

/-- Appended-and-pruned history as the claims describe it: the current sample
is appended, then samples older than 24 hours are dropped. -/
def prunedHistory (history0 : List Sample) (current_count now : Int) : List Sample :=
  (history0 ++ [Sample.mk current_count now]).filter (fun h => now - 86400 < h.timestamp)

/-- Arithmetic mean of the counts of a list of samples, over `ℚ`. -/
def historicalMean (l : List Sample) : ℚ :=
  ((l.map fun s => (s.count : ℚ)).sum) / (l.length : ℚ)

/-- Spike percentage as the claim states it: 0 when the average and the
current count are both zero, 100 when the average is zero but the count is
not, otherwise the relative increase over the average in percent. -/
def spikePercent (avg : ℚ) (current_count : Int) : ℚ :=
  if avg = 0 then (if current_count = 0 then 0 else 100)
  else (((current_count : ℚ) - avg) / avg) * 100

/-! Lemmas about the association-list operations and the cache. -/

theorem lookupA_eraseA_self {β : Type} (k : String) (l : List (String × β)) :
    lookupA k (eraseA k l) = none := by
  induction l with
  | nil => rfl
  | cons p rest ih =>
    by_cases h : p.1 = k
    · simpa [eraseA, List.filter_cons, h] using ih
    · simpa [eraseA, List.filter_cons, h, lookupA] using ih

theorem lookupA_append_right {β : Type} (k : String) (l1 l2 : List (String × β))
    (h : lookupA k l1 = none) : lookupA k (l1 ++ l2) = lookupA k l2 := by
  induction l1 with
  | nil => rfl
  | cons p rest ih =>
    by_cases hp : p.1 = k
    · simp [lookupA, hp] at h
    · simp only [lookupA, hp, if_false, List.cons_append, if_neg hp] at h ⊢
      exact ih h

theorem lookupA_insertA_self {β : Type} (k : String) (v : β) (l : List (String × β)) :
    lookupA k (insertA k v l) = some v := by
  rw [insertA, lookupA_append_right k _ _ (lookupA_eraseA_self k l)]
  simp [lookupA]

theorem lookupA_some_mem {β : Type} {k : String} {v : β} {l : List (String × β)}
    (h : lookupA k l = some v) : (k, v) ∈ l := by
  induction l with
  | nil => simp [lookupA] at h
  | cons p rest ih =>
    rw [lookupA] at h
    by_cases hp : p.1 = k
    · rw [if_pos hp] at h
      injection h with h2
      subst hp
      subst h2
      simp
    · rw [if_neg hp] at h
      exact List.mem_cons_of_mem _ (ih h)

theorem mem_eraseA {β : Type} {x : String × β} {k : String} {l : List (String × β)}
    (h : x ∈ eraseA k l) : x ∈ l ∧ x.1 ≠ k := by
  have := List.mem_filter.1 h
  exact ⟨this.1, by simpa using this.2⟩

theorem mem_insertA {β : Type} {x : String × β} {k : String} {v : β}
    {l : List (String × β)} (h : x ∈ insertA k v l) :
    x = (k, v) ∨ (x ∈ l ∧ x.1 ≠ k) := by
  rcases List.mem_append.1 h with h1 | h1
  · exact Or.inr (mem_eraseA h1)
  · simp only [List.mem_singleton] at h1
    exact Or.inl h1

theorem insertByMtime_perm {α : Type} (x : String × Entry α)
    (l : List (String × Entry α)) : List.Perm (insertByMtime x l) (x :: l) := by
  induction l with
  | nil => exact List.Perm.refl _
  | cons y ys ih =>
    rw [insertByMtime]
    split
    · exact List.Perm.refl _
    · exact (List.Perm.cons y ih).trans (List.Perm.swap x y ys)

theorem sortByMtime_perm {α : Type} (l : List (String × Entry α)) :
    List.Perm (sortByMtime l) l := by
  induction l with
  | nil => exact List.Perm.refl _
  | cons x xs ih => exact (insertByMtime_perm x (sortByMtime xs)).trans (ih.cons x)

theorem mem_cleanup_files {α : Type} {x : String × Entry α} {s : CacheState α}
    (h : x ∈ (cleanup s).files) : x ∈ s.files := by
  rw [cleanup] at h
  split at h
  · exact (sortByMtime_perm s.files).mem_iff.1 (List.mem_of_mem_drop h)
  · exact h

theorem cleanup_memory {α : Type} (s : CacheState α) :
    (cleanup s).memory = s.memory := by
  rw [cleanup]; split <;> rfl

theorem cleanup_max_entries {α : Type} (s : CacheState α) :
    (cleanup s).max_entries = s.max_entries := by
  rw [cleanup]; split <;> rfl

theorem cacheSet_max_entries {α : Type} (now : Int) (key : String) (v : α)
    (s : CacheState α) :
    (cacheSet now key v s).max_entries = s.max_entries := by
  rw [cacheSet, cleanup_max_entries]

theorem cacheSet_memory {α : Type} (now : Int) (key : String) (v : α)
    (s : CacheState α) :
    (cacheSet now key v s).memory = insertA key ⟨v, now⟩ s.memory := by
  rw [cacheSet, cleanup_memory]

theorem mem_cacheSet_files {α : Type} {x : String × Entry α} (now : Int)
    (key : String) (v : α) (s : CacheState α) (h : x ∈ (cacheSet now key v s).files) :
    x ∈ insertA (safe_key key) ⟨v, now⟩ s.files :=
  mem_cleanup_files h

/-! Theorems for the claims about the cache. -/

/-- C2: for every key, value and ttl > 0, `set(key, value)` immediately
followed by `get(key, ttl)` (same clock reading, no intervening writes)
returns the value that was set (served from the memory tier), leaving the
state unchanged. -/
theorem cache_set_then_get_returns_value {α : Type} (s : CacheState α)
    (key : String) (v : α) (now ttl : Int) (httl : 0 < ttl) :
    cacheGet now key ttl (cacheSet now key v s) = (some v, cacheSet now key v s) := by
  have hmem : lookupA key (cacheSet now key v s).memory = some ⟨v, now⟩ := by
    rw [cacheSet_memory]
    exact lookupA_insertA_self key _ s.memory
  have hfresh : now - now < ttl := by omega
  simp only [cacheGet, hmem, if_pos hfresh]

/-- Witness for C2 at a concrete instance. -/
theorem cache_set_then_get_returns_value_witness :
    (0 : Int) < 60 ∧
      (cacheGet 5 "price feed" 60 (cacheSet 5 "price feed" (7 : Nat)
        (emptyCache Nat 3))).1 = some 7 :=
  ⟨by decide, by
    rw [cache_set_then_get_returns_value (emptyCache Nat 3) "price feed" 7 5 60
      (by decide)]⟩

/-- C1: after `set(key, value)` at time `t`, a `get(key, ttl)` whose clock
satisfies `now - t ≥ ttl` (with ttl > 0) returns `None`, and afterwards
neither the memory tier nor the file tier holds an entry for the key: the
expired read deletes the memory entry and unlinks the file. -/
theorem cache_expired_get_absent_and_purged {α : Type} (s : CacheState α)
    (key : String) (v : α) (t ttl now : Int)
    (_httl : 0 < ttl) (helapsed : ttl ≤ now - t) :
    (cacheGet now key ttl (cacheSet t key v s)).1 = none ∧
    lookupA key (cacheGet now key ttl (cacheSet t key v s)).2.memory = none ∧
    lookupA (safe_key key) (cacheGet now key ttl (cacheSet t key v s)).2.files = none := by
  have hmem : lookupA key (cacheSet t key v s).memory = some ⟨v, t⟩ := by
    rw [cacheSet_memory]
    exact lookupA_insertA_self key _ s.memory
  have hstale : ¬ (now - t < ttl) := by omega
  simp only [cacheGet, hmem, if_neg hstale]
  rcases hfl : lookupA (safe_key key) (cacheSet t key v s).files with _ | e
  · refine ⟨?_, ?_, ?_⟩
    · simp [fileGet, hfl]
    · simp only [fileGet, hfl]
      exact lookupA_eraseA_self key _
    · simp [fileGet, hfl]
  · have he : e = ⟨v, t⟩ := by
      rcases mem_insertA (mem_cacheSet_files t key v s (lookupA_some_mem hfl)) with
        h1 | h1
      · exact congrArg Prod.snd h1
      · exact absurd rfl h1.2
    subst he
    refine ⟨?_, ?_, ?_⟩
    · simp [fileGet, hfl, if_neg hstale]
    · simp only [fileGet, hfl, if_neg hstale]
      exact lookupA_eraseA_self key _
    · simp only [fileGet, hfl, if_neg hstale]
      exact lookupA_eraseA_self (safe_key key) _

/-- Witness for C1 at a concrete instance. -/
theorem cache_expired_get_absent_and_purged_witness :
    (0 : Int) < 10 ∧ (10 : Int) ≤ 12 - 2 ∧
      (cacheGet 12 "k" 10 (cacheSet 2 "k" (1 : Nat) (emptyCache Nat 5))).1 = none :=
  ⟨by decide, by decide,
    (cache_expired_get_absent_and_purged (emptyCache Nat 5) "k" 1 2 10 12
      (by decide) (by decide)).1⟩

/-- C7 counterexample: the code keeps any character Python considers
alphanumeric, which includes non-ASCII letters such as 'é', whereas the claim
replaces every character outside `[A-Za-z0-9_-]` with '_'. At key "é" the
code yields "é" while the claimed mapping yields "_". -/
theorem safe_key_not_ascii_only :
    safe_key "é" = "é" ∧ spec_safe_key "é" = "_" ∧ safe_key "é" ≠ spec_safe_key "é" := by
  refine ⟨by decide, by decide, by decide⟩

/-- C7 amended: the cache maps a key to its file name by keeping every
character that is alphanumeric in Python's Unicode sense (`str.isalnum`) or
is '-' or '_', and replacing every other character with '_'; consequently the
sanitized name consists only of Python-alphanumeric characters (not
necessarily ASCII), '_' and '-'. -/
theorem safe_key_replaces_non_alnum (key : String) (c : Char)
    (hc : c ∈ (safe_key key).data) :
    pyIsAlnum c = true ∨ c = '-' ∨ c = '_' := by
  rw [safe_key] at hc
  rcases List.mem_map.1 hc with ⟨d, _, hd⟩
  by_cases h1 : pyIsAlnum d = true
  · left
    rw [if_pos (by simp [h1])] at hd
    exact hd ▸ h1
  · by_cases h2 : d = '-'
    · right; left
      rw [if_pos (by simp [h2])] at hd
      exact hd ▸ h2
    · by_cases h3 : d = '_'
      · right; right
        rw [if_pos (by simp [h3])] at hd
        exact hd ▸ h3
      · right; right
        rw [if_neg (by simp [h1, h2, h3])] at hd
        exact hd.symm

/-- Witness for C7's amended theorem at a concrete key and character. -/
theorem safe_key_replaces_non_alnum_witness :
    'b' ∈ (safe_key "a b").data ∧
      (pyIsAlnum 'b' = true ∨ 'b' = '-' ∨ 'b' = '_') :=
  ⟨by decide, safe_key_replaces_non_alnum "a b" 'b' (by decide)⟩

/-- C8: two distinct keys whose sanitized names coincide alias in the file
tier: after `set(k1, v1)` then `set(k2, v2)` (into a cache with capacity at
least 1, starting empty) the shared file holds `v2` with `k2`'s timestamp,
and a file-tier read of `k1` from a fresh process (empty memory tier, memory
miss) observes `k2`'s value. -/
theorem cache_sanitized_key_aliasing {α : Type} (k1 k2 : String) (v1 v2 : α)
    (t1 t2 now ttl : Int) (maxE : Nat)
    (_hne : k1 ≠ k2) (hcollide : safe_key k1 = safe_key k2)
    (hcap : 1 ≤ maxE) (hfresh : now - t2 < ttl) :
    lookupA (safe_key k1)
        (cacheSet t2 k2 v2 (cacheSet t1 k1 v1 (emptyCache α maxE))).files =
      some ⟨v2, t2⟩ ∧
    (cacheGet now k1 ttl
        { cacheSet t2 k2 v2 (cacheSet t1 k1 v1 (emptyCache α maxE)) with
          memory := [] }).1 = some v2 := by
  have hno : ¬ (maxE < 1) := by omega
  have h1 : (cacheSet t1 k1 v1 (emptyCache α maxE)).files =
      [(safe_key k1, ⟨v1, t1⟩)] := by
    simp [cacheSet, cleanup, insertA, eraseA, emptyCache, hno]
  have h2 : (cacheSet t2 k2 v2 (cacheSet t1 k1 v1 (emptyCache α maxE))).files =
      [(safe_key k2, ⟨v2, t2⟩)] := by
    simp [cacheSet, cleanup, insertA, eraseA, h1, ← hcollide,
      cacheSet_max_entries, emptyCache, hno]
  have hlook : lookupA (safe_key k1)
      (cacheSet t2 k2 v2 (cacheSet t1 k1 v1 (emptyCache α maxE))).files =
      some ⟨v2, t2⟩ := by
    rw [h2, ← hcollide]
    simp [lookupA]
  refine ⟨hlook, ?_⟩
  simp only [cacheGet, lookupA, fileGet, hlook, if_pos hfresh]

/-- Witness for C8: the keys "a b" and "a:b" both sanitize to "a_b". -/
theorem cache_sanitized_key_aliasing_witness :
    ("a b" ≠ "a:b" ∧ safe_key "a b" = safe_key "a:b") ∧
      (cacheGet 6 "a b" 30
        { cacheSet 5 "a:b" (2 : Nat) (cacheSet 4 "a b" 1 (emptyCache Nat 9)) with
          memory := [] }).1 = some 2 :=
  ⟨⟨by decide, by decide⟩,
    (cache_sanitized_key_aliasing "a b" "a:b" 1 2 4 5 6 30 9
      (by decide) (by decide) (by decide) (by decide)).2⟩

/-! Theorems for the claims about the spike detector. -/

/-- C3: `calculate_spike` appends the current sample and prunes samples older
than 24 hours; with fewer than 2 remaining samples it persists the pruned
history and returns the low-confidence early dict with
`historical_avg = current_count`; otherwise it returns the dict whose
`historical_avg` is the arithmetic mean of the remaining samples excluding
the just-appended current one, whose `spike_percent` follows the
guarded-division formula (0 for avg = 0 = count, 100 for avg = 0 ≠ count,
relative increase otherwise), and whose `is_spike` holds exactly when
`spike_percent > 50`. -/
theorem calculate_spike_formula (history0 : List Sample) (current_count now : Int) :
    (calculate_spike history0 current_count now).2 =
        prunedHistory history0 current_count now ∧
    ((prunedHistory history0 current_count now).length < 2 →
      (calculate_spike history0 current_count now).1 =
        [("spike_percent", .num 0), ("is_spike", .boolean false),
         ("historical_avg", .num current_count), ("confidence", .str "low")]) ∧
    (2 ≤ (prunedHistory history0 current_count now).length →
      (calculate_spike history0 current_count now).1 =
        [("spike_percent", .num (spikePercent
            (historicalMean (prunedHistory history0 current_count now).dropLast)
            current_count)),
         ("is_spike", .boolean (decide (50 < spikePercent
            (historicalMean (prunedHistory history0 current_count now).dropLast)
            current_count))),
         ("historical_avg", .num
            (historicalMean (prunedHistory history0 current_count now).dropLast)),
         ("current_count", .num current_count),
         ("confidence", .str
            (if 10 < (prunedHistory history0 current_count now).length
             then "high" else "medium"))] ∧
      (lookupA "is_spike" (calculate_spike history0 current_count now).1 =
          some (.boolean true) ↔
        50 < spikePercent
          (historicalMean (prunedHistory history0 current_count now).dropLast)
          current_count)) := by
  refine ⟨?_, ?_, ?_⟩
  · simp only [calculate_spike, prunedHistory]
    split <;> rfl
  · intro h
    rw [prunedHistory] at h
    simp only [calculate_spike]
    rw [if_pos h]
  · intro h
    rw [prunedHistory] at h
    have hnl : ¬ ((history0 ++ [Sample.mk current_count now]).filter
        (fun s => now - 86400 < s.timestamp)).length < 2 := by omega
    have hdlen : ((history0 ++ [Sample.mk current_count now]).filter
        (fun s => now - 86400 < s.timestamp)).dropLast.length =
        ((history0 ++ [Sample.mk current_count now]).filter
          (fun s => now - 86400 < s.timestamp)).length - 1 :=
      List.length_dropLast _
    have hne : (((history0 ++ [Sample.mk current_count now]).filter
        (fun s => now - 86400 < s.timestamp)).dropLast.map Sample.count).isEmpty
        = false := by
      cases hc : (((history0 ++ [Sample.mk current_count now]).filter
          (fun s => now - 86400 < s.timestamp)).dropLast.map Sample.count).isEmpty
      · rfl
      · exfalso
        have hl0 := List.isEmpty_iff.1 hc
        have hlen0 := congrArg List.length hl0
        rw [List.length_map, hdlen] at hlen0
        simp only [List.length_nil] at hlen0
        omega
    have havg : (if (((history0 ++ [Sample.mk current_count now]).filter
            (fun s => now - 86400 < s.timestamp)).dropLast.map Sample.count).isEmpty
              = true then (1 : ℚ)
          else ((((history0 ++ [Sample.mk current_count now]).filter
              (fun s => now - 86400 < s.timestamp)).dropLast.map Sample.count).map
                fun c => ((c : Int) : ℚ)).sum /
            ((((history0 ++ [Sample.mk current_count now]).filter
              (fun s => now - 86400 < s.timestamp)).dropLast.map Sample.count).length
                : ℚ)) =
        historicalMean (prunedHistory history0 current_count now).dropLast := by
      rw [hne, if_neg Bool.false_ne_true, historicalMean, prunedHistory,
        List.map_map, List.length_map]
      rfl
    have hres : (calculate_spike history0 current_count now).1 =
        [("spike_percent", RVal.num (spikePercent
            (historicalMean (prunedHistory history0 current_count now).dropLast)
            current_count)),
         ("is_spike", RVal.boolean (decide (50 < spikePercent
            (historicalMean (prunedHistory history0 current_count now).dropLast)
            current_count))),
         ("historical_avg", RVal.num
            (historicalMean (prunedHistory history0 current_count now).dropLast)),
         ("current_count", RVal.num current_count),
         ("confidence", RVal.str
            (if 10 < (prunedHistory history0 current_count now).length
             then "high" else "medium"))] := by
      simp only [calculate_spike, if_neg hnl]
      rw [havg, spikePercent, prunedHistory]
    refine ⟨hres, ?_⟩
    rw [hres]
    simp [lookupA]

/-- Witness for C3 at the claim's concrete instance: history `[10, 10, 10]`
with current count 20 yields `spike_percent = 100` and `is_spike = true`. -/
theorem calculate_spike_formula_witness :
    lookupA "spike_percent"
        (calculate_spike [⟨10, 99997⟩, ⟨10, 99998⟩, ⟨10, 99999⟩] 20 100000).1 =
      some (.num 100) ∧
    lookupA "is_spike"
        (calculate_spike [⟨10, 99997⟩, ⟨10, 99998⟩, ⟨10, 99999⟩] 20 100000).1 =
      some (.boolean true) := by
  have h := (calculate_spike_formula
    [Sample.mk 10 99997, Sample.mk 10 99998, Sample.mk 10 99999]
    20 100000).2.2 (by decide)
  constructor
  · rw [h.1, lookupA, if_pos rfl]
    norm_num [spikePercent, historicalMean, prunedHistory, List.filter,
      List.dropLast]
  · exact h.2.mpr (by
      norm_num [spikePercent, historicalMean, prunedHistory, List.filter,
        List.dropLast])

/-- C10: with at least 2 samples remaining after pruning, the returned dict
contains a `current_count` key holding the input count, while the
fewer-than-2-samples early return contains no `current_count` key at all. -/
theorem calculate_spike_result_shape (history0 : List Sample)
    (current_count now : Int) :
    (2 ≤ (prunedHistory history0 current_count now).length →
      lookupA "current_count" (calculate_spike history0 current_count now).1 =
        some (.num current_count)) ∧
    ((prunedHistory history0 current_count now).length < 2 →
      lookupA "current_count" (calculate_spike history0 current_count now).1 =
        none) := by
  constructor
  · intro h
    rw [prunedHistory] at h
    have hnl : ¬ ((history0 ++ [Sample.mk current_count now]).filter
        (fun s => now - 86400 < s.timestamp)).length < 2 := by omega
    simp only [calculate_spike, if_neg hnl]
    simp [lookupA]
  · intro h
    rw [prunedHistory] at h
    simp only [calculate_spike, if_pos h]
    simp [lookupA]

/-- Witness for C10: a two-sample history carries `current_count`. -/
theorem calculate_spike_result_shape_witness :
    lookupA "current_count" (calculate_spike [Sample.mk 5 99999] 7 100000).1 =
      some (.num 7) :=
  (calculate_spike_result_shape [Sample.mk 5 99999] 7 100000).1 (by decide)

/-! Theorems for the claims about the feed sources. -/

theorem nitterLoop_trace_le (now : Int) (outcomes : Nat → FetchOutcome) :
    ∀ (fuel attempt : Nat) (s : FeedSourceState) (acc : List FeedItem)
      (trace : List String),
    (nitterLoop now outcomes attempt fuel s acc trace).2.2.length ≤
      trace.length + fuel := by
  intro fuel
  induction fuel with
  | zero =>
    intro attempt s acc trace
    simp [nitterLoop]
  | succ n ih =>
    intro attempt s acc trace
    cases houtcome : outcomes attempt with
    | rateLimited =>
      simp only [nitterLoop, houtcome]
      have := ih (attempt + 1) (rotate_nitter (set_rate_limit now "nitter" 300 s))
        acc (trace ++ [get_nitter_url s])
      simp only [List.length_append, List.length_cons, List.length_nil] at this
      omega
    | transportError =>
      simp only [nitterLoop, houtcome]
      have := ih (attempt + 1) (rotate_nitter s) acc (trace ++ [get_nitter_url s])
      simp only [List.length_append, List.length_cons, List.length_nil] at this
      omega
    | success entries =>
      simp only [nitterLoop, houtcome]
      simp only [List.length_append, List.length_cons, List.length_nil]
      omega

/-- C5: in the mirrored fetch loop with 3 configured mirrors and 3
consecutive rate-limit responses, attempt `i` uses `mirrors[(start + i) % 3]`
and the call stops after exactly those 3 attempts with no tweets; in general
the attempt count never exceeds the mirror count; rotation advances the
pointer by one modulo the mirror count and a single-mirror set never
rotates. -/
theorem mirror_rotation_bounded_retry (u0 u1 u2 : String) (start : Nat)
    (hstart : start < 3) (rl : List (String × Int)) (now : Int) :
    ((nitterLoop now (fun _ => .rateLimited) 0 3
        ⟨[u0, u1, u2], start, rl⟩ [] []).2.2 =
      [[u0, u1, u2].getD (start % 3) "", [u0, u1, u2].getD ((start + 1) % 3) "",
       [u0, u1, u2].getD ((start + 2) % 3) ""] ∧
     (nitterLoop now (fun _ => .rateLimited) 0 3
        ⟨[u0, u1, u2], start, rl⟩ [] []).1 = []) ∧
    (∀ t : FeedSourceState, 1 < t.nitter_urls.length →
      (rotate_nitter t).current_nitter_idx =
        (t.current_nitter_idx + 1) % t.nitter_urls.length) ∧
    (∀ t : FeedSourceState, t.nitter_urls.length = 1 → rotate_nitter t = t) ∧
    (∀ (outcomes : Nat → FetchOutcome) (t : FeedSourceState),
      (nitterLoop now outcomes 0 t.nitter_urls.length t [] []).2.2.length ≤
        t.nitter_urls.length) := by
  refine ⟨?_, ?_, ?_, ?_⟩
  · interval_cases start <;>
      simp [nitterLoop, get_nitter_url, rotate_nitter, set_rate_limit,
        List.getD, List.isEmpty]
  · intro t ht
    rw [rotate_nitter, if_pos ht]
  · intro t ht
    rw [rotate_nitter, if_neg (by omega)]
  · intro outcomes t
    have := nitterLoop_trace_le now outcomes t.nitter_urls.length 0 t [] []
    simpa using this

/-- Witness for C5: three mirrors starting at index 1 are attempted in the
order second, third, first. -/
theorem mirror_rotation_bounded_retry_witness :
    (nitterLoop 0 (fun _ => .rateLimited) 0 3
        ⟨["a", "b", "c"], 1, []⟩ [] []).2.2 = ["b", "c", "a"] := by
  have h := (mirror_rotation_bounded_retry "a" "b" "c" 1 (by decide) [] 0).1.1
  simpa using h

/-- C9: for each of the three fetch operations, when the result is not
served from cache, the cache after the call equals the cache after the read
when the fetched result set is empty (rate limit, transport failure or empty
upstream response), and equals that cache with the results written under the
operation's key exactly when the result set is non-empty. -/
theorem fetch_writes_cache_iff_nonempty (now : Int) (query url source_name : String)
    (outcomes : Nat → FetchOutcome) (outcome outcome2 : FetchOutcome)
    (s : FeedSourceState) (c : CacheState (List FeedItem))
    (h1 : (cacheGet now ("nitter_search_" ++ query) 1800 c).1 = none)
    (h2 : (cacheGet now ("google_news_" ++ query) 1800 c).1 = none)
    (h3 : (cacheGet now ("rss_" ++ url) 1800 c).1 = none) :
    ((fetch_nitter_search now query outcomes s c).2.2 =
      if (fetch_nitter_search now query outcomes s c).1.isEmpty
      then (cacheGet now ("nitter_search_" ++ query) 1800 c).2
      else cacheSet now ("nitter_search_" ++ query)
        (fetch_nitter_search now query outcomes s c).1
        (cacheGet now ("nitter_search_" ++ query) 1800 c).2) ∧
    ((fetch_google_news now query outcome s c).2.2 =
      if (fetch_google_news now query outcome s c).1.isEmpty
      then (cacheGet now ("google_news_" ++ query) 1800 c).2
      else cacheSet now ("google_news_" ++ query)
        (fetch_google_news now query outcome s c).1
        (cacheGet now ("google_news_" ++ query) 1800 c).2) ∧
    ((fetch_rss_feed now url source_name outcome2 s c).2.2 =
      if (fetch_rss_feed now url source_name outcome2 s c).1.isEmpty
      then (cacheGet now ("rss_" ++ url) 1800 c).2
      else cacheSet now ("rss_" ++ url)
        (fetch_rss_feed now url source_name outcome2 s c).1
        (cacheGet now ("rss_" ++ url) 1800 c).2) := by
  refine ⟨?_, ?_, ?_⟩
  · rcases hget : cacheGet now ("nitter_search_" ++ query) 1800 c with ⟨r, c1⟩
    rw [hget] at h1
    simp only at h1
    subst h1
    rcases hrl : is_rate_limited now "nitter" s with ⟨b, s1⟩
    cases b
    · simp only [fetch_nitter_search, hget, hrl]
      split <;> simp_all
    · simp only [fetch_nitter_search, hget, hrl]
      simp
  · rcases hget : cacheGet now ("google_news_" ++ query) 1800 c with ⟨r, c1⟩
    rw [hget] at h2
    simp only at h2
    subst h2
    rcases hrl : is_rate_limited now "google_news" s with ⟨b, s1⟩
    cases b
    · simp only [fetch_google_news, hget, hrl]
      cases outcome <;> simp_all [fetch_google_news]
      · split <;> simp_all
    · simp only [fetch_google_news, hget, hrl]
      simp
  · rcases hget : cacheGet now ("rss_" ++ url) 1800 c with ⟨r, c1⟩
    rw [hget] at h3
    simp only at h3
    subst h3
    rcases hrl : is_rate_limited now ("rss_" ++ url) s with ⟨b, s1⟩
    cases b
    · simp only [fetch_rss_feed, hget, hrl]
      cases outcome2 <;> simp_all [fetch_rss_feed]
      · split <;> simp_all
    · simp only [fetch_rss_feed, hget, hrl]
      simp

/-- Witness for C9: all-rate-limited outcomes on an empty cache leave the
cache unchanged for all three fetchers. -/
theorem fetch_writes_cache_iff_nonempty_witness :
    (fetch_nitter_search 0 "q" (fun _ => .rateLimited)
        ⟨["m"], 0, []⟩ (emptyCache (List FeedItem) 5)).2.2 =
      emptyCache (List FeedItem) 5 ∧
    (fetch_google_news 0 "q" .rateLimited
        ⟨["m"], 0, []⟩ (emptyCache (List FeedItem) 5)).2.2 =
      emptyCache (List FeedItem) 5 := by
  have h := fetch_writes_cache_iff_nonempty 0 "q" "u" "src"
    (fun _ => .rateLimited) .rateLimited .rateLimited ⟨["m"], 0, []⟩
    (emptyCache (List FeedItem) 5) rfl rfl rfl
  refine ⟨?_, ?_⟩
  · have h1 := h.1
    simpa using h1
  · have h2 := h.2.1
    simpa using h2

/-! Lemmas about deduplication and sorting in aggregate_feeds. -/

theorem dedupLoop_sublist (seen : List String) (l : List FeedItem) :
    List.Sublist (dedupLoop seen l) l := by
  induction l generalizing seen with
  | nil => simp [dedupLoop]
  | cons item rest ih =>
    rw [dedupLoop]
    split
    · exact List.Sublist.cons item (ih seen)
    · exact List.Sublist.cons₂ item (ih _)

theorem dedupLoop_key_not_mem (seen : List String) (l : List FeedItem) :
    ∀ y ∈ dedupLoop seen l, ¬ (pyLower y.title ∈ seen) := by
  induction l generalizing seen with
  | nil => intro y hy; simp [dedupLoop] at hy
  | cons item rest ih =>
    intro y hy
    rw [dedupLoop] at hy
    split at hy
    · exact ih seen y hy
    · rcases List.mem_cons.1 hy with h | h
      · subst h
        rename_i hc
        simpa using hc
      · have hnot := ih (pyLower item.title :: seen) y h
        intro hmem
        exact hnot (List.mem_cons_of_mem _ hmem)

theorem dedupLoop_keys_nodup (seen : List String) (l : List FeedItem) :
    ((dedupLoop seen l).map (fun i => pyLower i.title)).Nodup := by
  induction l generalizing seen with
  | nil => simp [dedupLoop]
  | cons item rest ih =>
    rw [dedupLoop]
    split
    · exact ih seen
    · rw [List.map_cons, List.nodup_cons]
      refine ⟨?_, ih _⟩
      intro hmem
      rcases List.mem_map.1 hmem with ⟨y, hy, hkey⟩
      exact dedupLoop_key_not_mem _ _ y hy
        (hkey ▸ List.mem_cons_self (pyLower item.title) seen)

theorem dedupLoop_covers (seen : List String) (l : List FeedItem) :
    ∀ x ∈ l, pyLower x.title ∈ seen ∨
      ∃ y ∈ dedupLoop seen l, pyLower y.title = pyLower x.title := by
  induction l generalizing seen with
  | nil => intro x hx; simp at hx
  | cons item rest ih =>
    intro x hx
    rw [dedupLoop]
    rcases List.mem_cons.1 hx with h | h
    · subst h
      by_cases hc : seen.contains (pyLower x.title) = true
      · left
        simpa using hc
      · right
        rw [if_neg hc]
        exact ⟨x, List.mem_cons_self _ _, rfl⟩
    · by_cases hc : seen.contains (pyLower item.title) = true
      · rw [if_pos hc]
        exact ih seen x h
      · rw [if_neg hc]
        rcases ih (pyLower item.title :: seen) x h with hmem | ⟨y, hy, hk⟩
        · rcases List.mem_cons.1 hmem with he | hs
          · right
            exact ⟨item, List.mem_cons_self _ _, he.symm⟩
          · left
            exact hs
        · right
          exact ⟨y, List.mem_cons_of_mem _ hy, hk⟩

theorem dedupLoop_keeps_first (seen : List String) (l : List FeedItem) :
    ∀ y ∈ dedupLoop seen l,
      l.find? (fun z => pyLower z.title == pyLower y.title) = some y := by
  induction l generalizing seen with
  | nil => intro y hy; simp [dedupLoop] at hy
  | cons item rest ih =>
    intro y hy
    rw [dedupLoop] at hy
    split at hy
    · rename_i hc
      have hyk : ¬ (pyLower y.title ∈ seen) := dedupLoop_key_not_mem seen rest y hy
      have hik : pyLower item.title ∈ seen := by simpa using hc
      have hne : ¬ ((pyLower item.title == pyLower y.title) = true) := by
        rw [beq_iff_eq]
        intro he
        exact hyk (he ▸ hik)
      rw [show List.find? (fun z => pyLower z.title == pyLower y.title)
            (item :: rest) =
          List.find? (fun z => pyLower z.title == pyLower y.title) rest from
        List.find?_cons_of_neg _ hne]
      exact ih seen y hy
    · rcases List.mem_cons.1 hy with h | h
      · subst h
        have hpos : (pyLower y.title == pyLower y.title) = true := beq_self_eq_true _
        exact show List.find? (fun z => pyLower z.title == pyLower y.title)
            (y :: rest) = some y from List.find?_cons_of_pos _ hpos
      · have hyk := dedupLoop_key_not_mem (pyLower item.title :: seen) rest y h
        have hne : ¬ ((pyLower item.title == pyLower y.title) = true) := by
          rw [beq_iff_eq]
          intro he
          exact hyk (he ▸ List.mem_cons_self _ _)
        rw [show List.find? (fun z => pyLower z.title == pyLower y.title)
              (item :: rest) =
            List.find? (fun z => pyLower z.title == pyLower y.title) rest from
          List.find?_cons_of_neg _ hne]
        exact ih _ y h

theorem insertByPublished_perm (x : FeedItem) (l : List FeedItem) :
    List.Perm (insertByPublished x l) (x :: l) := by
  induction l with
  | nil => exact List.Perm.refl _
  | cons y ys ih =>
    rw [insertByPublished]
    split
    · exact (List.Perm.cons y ih).trans (List.Perm.swap x y ys)
    · exact List.Perm.refl _

theorem sortByPublishedDesc_perm (l : List FeedItem) :
    List.Perm (sortByPublishedDesc l) l := by
  induction l with
  | nil => exact List.Perm.refl _
  | cons x xs ih =>
    exact (insertByPublished_perm x (sortByPublishedDesc xs)).trans (ih.cons x)

theorem insertByPublished_pairwise {x : FeedItem} {l : List FeedItem}
    (h : l.Pairwise (fun a b => b.published ≤ a.published)) :
    (insertByPublished x l).Pairwise (fun a b => b.published ≤ a.published) := by
  induction l with
  | nil => simp [insertByPublished]
  | cons y ys ih =>
    rw [List.pairwise_cons] at h
    rw [insertByPublished]
    split
    · rename_i hlt
      rw [List.pairwise_cons]
      refine ⟨?_, ih h.2⟩
      intro z hz
      rcases List.mem_cons.1 ((insertByPublished_perm x ys).mem_iff.1 hz) with
        hz1 | hz1
      · exact hz1 ▸ le_of_lt hlt
      · exact h.1 z hz1
    · rename_i hnlt
      rw [List.pairwise_cons]
      refine ⟨?_, List.pairwise_cons.2 h⟩
      intro z hz
      rcases List.mem_cons.1 hz with hz1 | hz1
      · exact hz1 ▸ not_lt.1 hnlt
      · exact le_trans (h.1 z hz1) (not_lt.1 hnlt)

theorem sortByPublishedDesc_pairwise (l : List FeedItem) :
    (sortByPublishedDesc l).Pairwise (fun a b => b.published ≤ a.published) := by
  induction l with
  | nil => simp [sortByPublishedDesc]
  | cons x xs ih =>
    rw [sortByPublishedDesc]
    exact insertByPublished_pairwise ih

theorem aggLoop_trace (ks : List String) (st : List (String × String)) :
    (aggLoop (fun k st => ([], st ++ [("social", k)]))
             (fun k st => ([], st ++ [("news", k)])) ks st).2 =
      st ++ ks.flatMap (fun k => [("social", k), ("news", k)]) := by
  induction ks generalizing st with
  | nil => simp [aggLoop]
  | cons k ks ih =>
    simp [aggLoop, ih]

/-! Theorem for the claim about aggregation. -/

/-- C4: `aggregate_feeds` depends only on the first 5 keywords and issues
per-keyword fetches (social before news) for exactly those; the combined
results are deduplicated by lowercased title keeping the first occurrence in
iteration order; the returned items are among the deduplicated ones, sorted
by `published` descending under lexical string order, and number at most 20;
two items whose titles differ only by case collapse to the first. -/
theorem aggregate_feeds_spec {σ : Type}
    (fS fN : String → σ → List FeedItem × σ) (kws : List String) (st : σ) :
    (aggregate_feeds fS fN kws st = aggregate_feeds fS fN (kws.take 5) st) ∧
    (∀ ks : List String,
      (aggregate_feeds (fun k st => (([] : List FeedItem), st ++ [("social", k)]))
        (fun k st => ([], st ++ [("news", k)])) ks []).2 =
      (ks.take 5).flatMap (fun k => [("social", k), ("news", k)])) ∧
    (aggregate_feeds fS fN kws st).1.length ≤ 20 ∧
    (aggregate_feeds fS fN kws st).1.Pairwise
      (fun a b => b.published ≤ a.published) ∧
    ((aggregate_feeds fS fN kws st).1.map (fun i => pyLower i.title)).Nodup ∧
    (∀ x ∈ (aggregate_feeds fS fN kws st).1,
      x ∈ dedupLoop [] (aggLoop fS fN (kws.take 5) st).1) ∧
    List.Sublist (dedupLoop [] (aggLoop fS fN (kws.take 5) st).1)
      (aggLoop fS fN (kws.take 5) st).1 ∧
    (∀ x ∈ (aggLoop fS fN (kws.take 5) st).1,
      ∃ y ∈ dedupLoop [] (aggLoop fS fN (kws.take 5) st).1,
        pyLower y.title = pyLower x.title) ∧
    (∀ y ∈ dedupLoop [] (aggLoop fS fN (kws.take 5) st).1,
      (aggLoop fS fN (kws.take 5) st).1.find?
        (fun z => pyLower z.title == pyLower y.title) = some y) ∧
    dedupLoop [] [FeedItem.mk "Fed Raises Rates" "l1" "p1" "s1",
                  FeedItem.mk "fed raises rates" "l2" "p2" "s2"] =
      [FeedItem.mk "Fed Raises Rates" "l1" "p1" "s1"] := by
  refine ⟨?_, ?_, ?_, ?_, ?_, ?_, ?_, ?_, ?_, ?_⟩
  · simp [aggregate_feeds, List.take_take]
  · intro ks
    simp [aggregate_feeds, aggLoop_trace]
  · rw [aggregate_feeds]
    simp only [List.length_take]
    omega
  · rw [aggregate_feeds]
    exact List.Pairwise.sublist (List.take_sublist _ _)
      (sortByPublishedDesc_pairwise _)
  · rw [aggregate_feeds]
    refine List.Nodup.sublist (List.Sublist.map _ (List.take_sublist _ _)) ?_
    refine (List.Perm.nodup_iff (List.Perm.map _ (sortByPublishedDesc_perm _))).2 ?_
    exact dedupLoop_keys_nodup [] _
  · intro x hx
    rw [aggregate_feeds] at hx
    exact (sortByPublishedDesc_perm _).mem_iff.1
      (List.mem_of_mem_take hx)
  · exact dedupLoop_sublist [] _
  · intro x hx
    rcases dedupLoop_covers [] _ x hx with hmem | hy
    · simp at hmem
    · exact hy
  · exact dedupLoop_keeps_first [] _
  · decide

/-- Witness for C4: with a fetcher returning one item for keyword "a", the
returned item is the deduplicated one. -/
theorem aggregate_feeds_spec_witness :
    (∀ x ∈ (aggregate_feeds
        (fun _ (st : Unit) => ([FeedItem.mk "T" "l" "p" "s"], st))
        (fun _ st => ([], st)) ["a"] ()).1,
      x ∈ dedupLoop [] (aggLoop
        (fun _ (st : Unit) => ([FeedItem.mk "T" "l" "p" "s"], st))
        (fun _ st => ([], st)) (["a"].take 5) ()).1) ∧
    FeedItem.mk "T" "l" "p" "s" ∈ (aggregate_feeds
        (fun _ (st : Unit) => ([FeedItem.mk "T" "l" "p" "s"], st))
        (fun _ st => ([], st)) ["a"] ()).1 :=
  ⟨(aggregate_feeds_spec
      (fun _ (st : Unit) => ([FeedItem.mk "T" "l" "p" "s"], st))
      (fun _ st => ([], st)) ["a"] ()).2.2.2.2.2.1,
    by decide⟩

/-! Lemmas for the capacity/eviction claim. -/

theorem eraseA_of_forall_ne {β : Type} {k : String} {l : List (String × β)}
    (h : ∀ e ∈ l, e.1 ≠ k) : eraseA k l = l := by
  induction l with
  | nil => rfl
  | cons p rest ih =>
    have hp : (p.1 != k) = true := by
      simpa using h p (List.mem_cons_self _ _)
    have hrest := ih (fun e he => h e (List.mem_cons_of_mem _ he))
    rw [eraseA, List.filter_cons, if_pos hp]
    rw [eraseA] at hrest
    rw [hrest]

theorem insertByMtime_of_le {α : Type} (x : String × Entry α)
    (l : List (String × Entry α))
    (hx : ∀ y ∈ l, x.2.timestamp ≤ y.2.timestamp) :
    insertByMtime x l = x :: l := by
  cases l with
  | nil => rfl
  | cons y ys =>
    rw [insertByMtime, if_pos (hx y (List.mem_cons_self _ _))]

theorem sortByMtime_sorted_id {α : Type} (l : List (String × Entry α))
    (h : l.Pairwise (fun a b => a.2.timestamp ≤ b.2.timestamp)) :
    sortByMtime l = l := by
  induction l with
  | nil => rfl
  | cons x xs ih =>
    rw [List.pairwise_cons] at h
    rw [sortByMtime, ih h.2]
    exact insertByMtime_of_le x xs h.1

theorem cleanup_sorted {α : Type} (s : CacheState α)
    (h : s.files.Pairwise (fun a b => a.2.timestamp ≤ b.2.timestamp)) :
    cleanup s =
      { s with files := s.files.drop (s.files.length - s.max_entries) } := by
  rw [cleanup]
  split
  · rw [sortByMtime_sorted_id _ h]
  · rename_i hle
    have h0 : s.files.length - s.max_entries = 0 := by omega
    rw [h0, List.drop_zero]

theorem expectedFiles_length {α : Type} :
    ∀ (writes : List (String × α)) (t : Int),
    (expectedFiles t writes).length = writes.length := by
  intro writes
  induction writes with
  | nil => intro t; rfl
  | cons w rest ih =>
    intro t
    cases w with
    | mk k v => simp [expectedFiles, ih]

theorem expectedFiles_map_fst {α : Type} :
    ∀ (writes : List (String × α)) (t : Int),
    (expectedFiles t writes).map Prod.fst =
      writes.map (fun w => safe_key w.1) := by
  intro writes
  induction writes with
  | nil => intro t; rfl
  | cons w rest ih =>
    intro t
    cases w with
    | mk k v => simp [expectedFiles, ih]

theorem setSeq_files {α : Type} :
    ∀ (writes : List (String × α)) (c : CacheState α) (t : Int),
    (∀ e ∈ c.files, e.2.timestamp < t) →
    c.files.Pairwise (fun a b => a.2.timestamp ≤ b.2.timestamp) →
    c.files.length ≤ c.max_entries →
    (∀ w ∈ writes, ∀ e ∈ c.files, e.1 ≠ safe_key w.1) →
    ((writes.map (fun w => safe_key w.1)).Nodup) →
    (setSeq c t writes).files =
      (c.files ++ expectedFiles t writes).drop
        ((c.files ++ expectedFiles t writes).length - c.max_entries) := by
  intro writes
  induction writes with
  | nil =>
    intro c t hts hsort hlen hfresh hnodup
    rw [setSeq, expectedFiles, List.append_nil]
    have h0 : c.files.length - c.max_entries = 0 := by omega
    rw [h0, List.drop_zero]
  | cons w rest ih =>
    intro c t hts hsort hlen hfresh hnodup
    cases w with
    | mk k v =>
    rw [List.map_cons, List.nodup_cons] at hnodup
    have hfresh1 : ∀ e ∈ c.files, e.1 ≠ safe_key k :=
      fun e he => hfresh (k, v) (List.mem_cons_self _ _) e he
    have happend : (c.files ++ [(safe_key k, (⟨v, t⟩ : Entry α))]).Pairwise
        (fun a b => a.2.timestamp ≤ b.2.timestamp) := by
      rw [List.pairwise_append]
      refine ⟨hsort, by simp, ?_⟩
      intro a ha b hb
      rw [List.mem_singleton] at hb
      subst hb
      exact le_of_lt (hts a ha)
    have hfiles1 : (cacheSet t k v c).files =
        (c.files ++ [(safe_key k, (⟨v, t⟩ : Entry α))]).drop
          ((c.files ++ [(safe_key k, (⟨v, t⟩ : Entry α))]).length -
            c.max_entries) := by
      have hins : insertA (safe_key k) (⟨v, t⟩ : Entry α) c.files =
          c.files ++ [(safe_key k, ⟨v, t⟩)] := by
        rw [insertA, eraseA_of_forall_ne hfresh1]
      rw [cacheSet, hins, cleanup_sorted _ happend]
    have hmem1 : ∀ e ∈ (cacheSet t k v c).files,
        e ∈ c.files ∨ e = (safe_key k, (⟨v, t⟩ : Entry α)) := by
      intro e he
      rw [hfiles1] at he
      have := List.mem_of_mem_drop he
      rcases List.mem_append.1 this with h1 | h1
      · exact Or.inl h1
      · exact Or.inr (List.mem_singleton.1 h1)
    have hts1 : ∀ e ∈ (cacheSet t k v c).files, e.2.timestamp < t + 1 := by
      intro e he
      rcases hmem1 e he with h1 | h1
      · have := hts e h1
        omega
      · subst h1
        show t < t + 1
        omega
    have hsort1 : (cacheSet t k v c).files.Pairwise
        (fun a b => a.2.timestamp ≤ b.2.timestamp) := by
      rw [hfiles1]
      exact List.Pairwise.sublist (List.drop_sublist _ _) happend
    have hlen1 : (cacheSet t k v c).files.length ≤
        (cacheSet t k v c).max_entries := by
      rw [hfiles1, cacheSet_max_entries, List.length_drop]
      omega
    have hfresh2 : ∀ w' ∈ rest, ∀ e ∈ (cacheSet t k v c).files,
        e.1 ≠ safe_key w'.1 := by
      intro w' hw' e he
      rcases hmem1 e he with h1 | h1
      · exact hfresh w' (List.mem_cons_of_mem _ hw') e h1
      · subst h1
        intro he2
        have he3 : safe_key k = safe_key w'.1 := he2
        exact hnodup.1 (he3.symm ▸ List.mem_map_of_mem _ hw')
    rw [setSeq, ih (cacheSet t k v c) (t + 1) hts1 hsort1 hlen1 hfresh2 hnodup.2]
    rw [hfiles1, cacheSet_max_entries]
    rw [← List.drop_append_of_le_length (by omega)]
    rw [List.drop_drop, expectedFiles]
    have hcongr : ∀ (L1 L2 : List (String × Entry α)) (n m : Nat),
        L1 = L2 → n = m → L1.drop n = L2.drop m := by
      intro L1 L2 n m h1 h2
      rw [h1, h2]
    apply hcongr
    · rw [List.append_assoc, List.singleton_append]
    · simp only [List.length_append, List.length_drop, List.length_cons,
        List.length_nil, expectedFiles_length]
      omega

/-! Theorem for the capacity claim. -/

/-- C6: starting from an empty cache with `max_entries = N` and writing a
sequence of keys with pairwise distinct sanitized names at strictly
increasing times, the file tier ends with exactly the entries of the last
`N` writes (oldest-by-modification-time evicted first on each set), hence at
most `N` entries, and the retained file names are the sanitized keys of the
`N` most recent writes. -/
theorem cache_capacity_eviction {α : Type} (writes : List (String × α))
    (t : Int) (maxE : Nat)
    (hnodup : (writes.map (fun w => safe_key w.1)).Nodup) :
    (setSeq (emptyCache α maxE) t writes).files =
      (expectedFiles t writes).drop (writes.length - maxE) ∧
    (setSeq (emptyCache α maxE) t writes).files.length ≤ maxE ∧
    (setSeq (emptyCache α maxE) t writes).files.map Prod.fst =
      (writes.drop (writes.length - maxE)).map (fun w => safe_key w.1) := by
  have h := setSeq_files writes (emptyCache α maxE) t
    (by intro e he; simp [emptyCache] at he)
    (by simp [emptyCache])
    (by simp [emptyCache])
    (by intro w hw e he; simp [emptyCache] at he)
    hnodup
  rw [show (emptyCache α maxE).files = [] from rfl,
    show (emptyCache α maxE).max_entries = maxE from rfl,
    List.nil_append] at h
  refine ⟨?_, ?_, ?_⟩
  · rw [h, expectedFiles_length]
  · rw [h, List.length_drop, expectedFiles_length]
    omega
  · rw [h, expectedFiles_length]
    simp only [List.map_drop, expectedFiles_map_fst]

/-- Witness for C6: capacity 2 with three distinct keys retains the last
two files. -/
theorem cache_capacity_eviction_witness :
    (setSeq (emptyCache Nat 2) 0 [("a", 1), ("b", 2), ("c", 3)]).files.map
      Prod.fst = ["b", "c"] := by
  have h := (cache_capacity_eviction [("a", 1), ("b", 2), ("c", 3)] 0 2
    (by decide)).2.2
  rw [h]
  decide

